import Mathlib

/-!
# Verification of the Face attendance application (src/app.py)

Shallow embedding of the parts of `app.py` relevant to the stabilization
state machine (`update_recognition_state`), attendance commit
(`mark_attendance`), the recognition task (`_run_deepface_recognition`)
and the frame-processing worker (`_frame_processing_worker`), together
with theorems settling the specification claims about them.

Conventions: Python floats that only ever hold small rationals are
embedded as `ℚ` (or the comparison is rewritten over `ℕ` where exact,
e.g. `count / len >= 0.75` becomes `4 * count ≥ 3 * len`, which agrees
with the float comparison for `len ≤ 8`); Python `datetime` values are
embedded as `ℤ` seconds; fallible external calls are embedded as an
explicit outcome datatype.
-/

namespace FaceApp

/-- Tuning constant `self.HISTORY_MAX_LENGTH = 8` from `app.py`. -/
def HISTORY_MAX_LENGTH : Nat := 8

/-- Tuning constant `self.REQUIRED_STABLE_FRAMES = 4` from `app.py`. -/
def REQUIRED_STABLE_FRAMES : Nat := 4

/-- Cooldown constant `self.LOG_COOLDOWN_SECONDS = 300` from `app.py`. -/
def LOG_COOLDOWN_SECONDS : Int := 300

/-- The sentinel labels excluded by `update_recognition_state`:
`["Unknown", "Error", "Searching..."]`. -/
def sentinelLabels : List String := ["Unknown", "Error", "Searching..."]

/-- The state mutated by `update_recognition_state`:
`self.recognition_history`, `self.stable_recognition_count`,
`self.locked_in_person`. -/
structure RecState where
  hist : List String
  count : Nat
  locked : Option String
deriving DecidableEq, Repr

/-- The initial stabilization state set in `__init__`:
`recognition_history = []`, `stable_recognition_count = 0`,
`locked_in_person = None`. -/
def initRecState : RecState := { hist := [], count := 0, locked := none }

/-- Python truthiness of `self.locked_in_person` (a `str` or `None`):
falsy exactly for `None` and the empty string. -/
def strTruthy : Option String → Bool
  | none => false
  | some s => s ≠ ""

/-- One step of the fold computing `Counter(l).most_common(1)[0]`:
replace the current best only on a strictly larger count, so that ties
go to the earlier element. -/
def mcStep (l : List String) (best : Option (String × Nat)) (x : String) :
    Option (String × Nat) :=
  match best with
  | none => some (x, l.count x)
  | some (b, c) => if l.count x > c then some (x, l.count x) else some (b, c)

/-- `Counter(history).most_common(1)[0]`: the pair of the most frequent
element and its count, ties broken in favour of first occurrence in the
list (Python `Counter` iterates keys in insertion order and
`most_common`'s sort is stable).  Embedded as a left fold that replaces
the current best only on a strictly larger count. -/
def mostCommon (l : List String) : Option (String × Nat) :=
  l.foldl (mcStep l) none

/-- The history append-and-cap of `update_recognition_state`:
`history.append(name); if len(history) > HISTORY_MAX_LENGTH: history.pop(0)`. -/
def pushCap (h : List String) (name : String) : List String :=
  let h1 := h ++ [name]
  if h1.length > HISTORY_MAX_LENGTH then h1.tail else h1

/-- `update_recognition_state(self, name)` from `app.py` (lines 492-514).

* append `name` to the history, popping the front if the capacity 8 is
  exceeded; an empty history returns early;
* compute the most common label and its proportion of the history
  (`proportion >= 0.75` is embedded exactly as `4 * cnt ≥ 3 * len`);
* if the most common label is not a sentinel and the proportion test
  passes: increment `stable_recognition_count` while it is below
  `REQUIRED_STABLE_FRAMES`, otherwise lock in the most common label if
  it differs from the current lock;
* else: reset `stable_recognition_count` to 0, and if a (truthy)
  identity is locked, unlock it and clear the history. -/
def update_recognition_state (s : RecState) (name : String) : RecState :=
  let h2 := pushCap s.hist name
  if h2 = [] then { s with hist := h2 }
  else
    match mostCommon h2 with
    | none => { s with hist := h2 }
    | some (mc, cnt) =>
      if mc ∉ sentinelLabels ∧ 4 * cnt ≥ 3 * h2.length then
        if s.count < REQUIRED_STABLE_FRAMES then
          { hist := h2, count := s.count + 1, locked := s.locked }
        else if s.locked ≠ some mc then
          { hist := h2, count := s.count, locked := some mc }
        else
          { s with hist := h2 }
      else
        if strTruthy s.locked then
          { hist := [], count := 0, locked := none }
        else
          { hist := h2, count := 0, locked := s.locked }

/-- Feeding a list of recognition labels into the state machine, one
`update_recognition_state` call per label. -/
def feedLabels (s : RecState) (labels : List String) : RecState :=
  labels.foldl update_recognition_state s

/-! ## Attendance commit (`mark_attendance`, app.py lines 892-936) -/

/-- One row appended to an attendance CSV file: name, department, and
the timestamp `now` the date/time strings are formatted from
(embedded as seconds, `ℤ`). -/
structure LogEntry where
  name : String
  department : String
  stamp : Int
deriving DecidableEq, Repr

/-- Outcome of reading `details.json` for a user: the file is missing
(`os.path.exists` fails), the read or the JSON parse raises, or it
yields the values of `details.get('user_type', 'Unknown')` and
`details.get('department', 'N/A')`. -/
inductive DetailResult where
  | missing
  | unreadable
  | found (user_type : String) (department : String)
deriving DecidableEq, Repr

/-- The environment a `mark_attendance` call runs in: the current time
`datetime.now()` (seconds, `ℤ`), the persisted per-user details, and
whether the CSV append (`entry.to_csv(..., mode='a', ...)`) succeeds
or raises. -/
structure AttEnv where
  now : Int
  details : String → DetailResult
  write_ok : Bool

/-- The state read and written by `mark_attendance`: the cooldown table
`self.recently_logged` (name → expiry timestamp), the stabilization
lock and history, and the two attendance files as lists of rows. -/
structure AttState where
  recently_logged : String → Option Int
  locked_in_person : Option String
  recognition_history : List String
  student_log : List LogEntry
  faculty_log : List LogEntry

/-- The cooldown guard of `mark_attendance`:
`name in self.recently_logged and now < self.recently_logged[name]`. -/
def cooldownActive (st : AttState) (now : Int) (name : String) : Bool :=
  match st.recently_logged name with
  | some t => now < t
  | none => false

/-- `mark_attendance(self, name)` from `app.py` (lines 892-936).

* if the cooldown guard fires, return with no change;
* if `details.json` is missing or unreadable, log an error and return;
* if `user_type` is neither `Student` nor `Faculty`, warn and return;
* otherwise append one row to the matching attendance file; on success
  set `recently_logged[name] = now + LOG_COOLDOWN_SECONDS`, clear
  `locked_in_person` and the recognition history; if the append raises,
  nothing after it in the `try` block runs, so no state changes. -/
def mark_attendance (env : AttEnv) (st : AttState) (name : String) : AttState :=
  if cooldownActive st env.now name then st
  else
    match env.details name with
    | .missing => st
    | .unreadable => st
    | .found ut dept =>
      if ut = "Student" then
        if env.write_ok then
          { recently_logged := fun n =>
              if n = name then some (env.now + LOG_COOLDOWN_SECONDS)
              else st.recently_logged n,
            locked_in_person := none,
            recognition_history := [],
            student_log := st.student_log ++ [⟨name, dept, env.now⟩],
            faculty_log := st.faculty_log }
        else st
      else if ut = "Faculty" then
        if env.write_ok then
          { recently_logged := fun n =>
              if n = name then some (env.now + LOG_COOLDOWN_SECONDS)
              else st.recently_logged n,
            locked_in_person := none,
            recognition_history := [],
            student_log := st.student_log,
            faculty_log := st.faculty_log ++ [⟨name, dept, env.now⟩] }
        else st
      else st

/-- Total number of attendance rows across the two files. -/
def totalWrites (st : AttState) : Nat :=
  st.student_log.length + st.faculty_log.length

/-! ## Recognition task (`_run_deepface_recognition`, app.py lines 458-474) -/

/-- Distance threshold `self.DEEPFACE_DISTANCE_THRESHOLD = 0.40`,
embedded as the rational `2/5` (match distances are embedded as `ℚ`). -/
def DEEPFACE_DISTANCE_THRESHOLD : ℚ := 2/5

/-- `.replace('_', ' ')` on a Python `str`: with a one-character
pattern this replaces every underscore character by a space. -/
def replaceUnderscores (s : String) : String :=
  String.mk (s.data.map (fun c => if c = '_' then ' ' else c))

/-- Splitting a path into its `/`-separated components (performed on
the underlying character list). -/
def splitSlash (p : String) : List String :=
  (p.data.splitOn '/').map String.mk

/-- `os.path.basename(os.path.dirname(identity_path)).replace('_', ' ')`:
the last directory component of the matched image path, with
underscores replaced by spaces. -/
def path_to_name (p : String) : String :=
  replaceUnderscores ((splitSlash p).dropLast.getLastD "")

/-- Outcome of the external `DeepFace.find` call: either it raises, or
it returns a list of dataframes, each a list of rows carrying an
`identity` path and a `distance`, sorted so the best match comes
first. -/
inductive DFOutcome where
  | raises
  | result (dfs : List (List (String × ℚ)))
deriving DecidableEq, Repr

/-- `_run_deepface_recognition(self, frame)` from `app.py`
(lines 458-474), as the value it stores in
`self.last_recognition_result` (`none` embeds `float('inf')`).

* a nonempty first dataframe: take its first row; distance below the
  threshold gives `(name, distance)`, otherwise `("Unknown", distance)`;
* an empty result (`dfs` not a nonempty list, or `dfs[0]` empty) gives
  `("Unknown", inf)`;
* any exception gives `("Unknown", inf)` — the whole body is inside
  `try/except`. -/
def run_deepface_recognition (o : DFOutcome) : String × Option ℚ :=
  match o with
  | .raises => ("Unknown", none)
  | .result dfs =>
    match dfs with
    | [] => ("Unknown", none)
    | df :: _ =>
      match df with
      | [] => ("Unknown", none)
      | (ident, dist) :: _ =>
        if dist < DEEPFACE_DISTANCE_THRESHOLD then (path_to_name ident, some dist)
        else ("Unknown", some dist)

/-! ## Frame-processing worker (`_frame_processing_worker`, app.py
lines 425-456) -/

/-- Dispatch interval `self.RECOGNITION_INTERVAL = 0.75` (seconds,
embedded as `ℚ`; `time.monotonic()` values are embedded as `ℚ`). -/
def RECOGNITION_INTERVAL : ℚ := 3/4

/-- Outcome of `self.face_cascade.detectMultiScale` on one frame:
either a (possibly empty) list of face rectangles `(x, y, w, h)`, or
an exception. -/
inductive DetectOutcome where
  | faces (fs : List (Int × Int × Int × Int))
  | raises
deriving DecidableEq, Repr

/-- What `self.raw_frame_queue.get(timeout=1.0)` yields in one loop
iteration: `queue.Empty` (caught, `continue`), or a frame together
with what detection will do on it. -/
inductive FrameFetch where
  | empty
  | frame (d : DetectOutcome)
deriving DecidableEq, Repr

/-- How one loop iteration ends when no exception escapes: skipped on
an empty queue, or fully processed with the detected face coordinates
(`None` when no face). -/
inductive IterOutcome where
  | skipped
  | processed (face_coords : Option (Int × Int × Int × Int))
deriving DecidableEq, Repr

/-- `max(faces, key=lambda rect: rect[2] * rect[3])`: the first face
rectangle of maximal area `w * h` (Python `max` keeps the earliest
maximum). -/
def largest_face : List (Int × Int × Int × Int) → Option (Int × Int × Int × Int)
  | [] => none
  | f :: fs =>
    some (fs.foldl
      (fun best r =>
        if r.2.2.1 * r.2.2.2 > best.2.2.1 * best.2.2.2 then r else best)
      f)

/-- `(int(c / self.FRAME_PROCESS_SCALE_FACTOR) for c in largest_face)`
with `FRAME_PROCESS_SCALE_FACTOR = 0.5`: each coordinate doubled. -/
def scaleUpRect (r : Int × Int × Int × Int) : Int × Int × Int × Int :=
  (2 * r.1, 2 * r.2.1, 2 * r.2.2.1, 2 * r.2.2.2)

/-- One iteration of the `while` body of `_frame_processing_worker`, up
to the computation of `face_coords`.  The only `try/except` in the
body guards the queue `get` (catching `queue.Empty`) and the queue
`put` (catching `queue.Full`); the `detectMultiScale` call is NOT
guarded, so an exception there escapes the loop body (`Except.error`),
which terminates the worker thread. -/
def worker_iteration : FrameFetch → Except Unit IterOutcome
  | .empty => .ok .skipped
  | .frame .raises => .error ()
  | .frame (.faces fs) => .ok (.processed ((largest_face fs).map scaleUpRect))

/-- The recognition-dispatch context of one worker iteration: the
values read by the dispatch condition in `_frame_processing_worker`
(`self.database_ready`, `face_coords`, whether
`self.recognition_future` is set and running, `time.monotonic()` and
`self.last_recognition_time`). -/
structure WorkerCtx where
  database_ready : Bool
  face_coords : Option (Int × Int × Int × Int)
  recognition_running : Bool
  current_time : ℚ
  last_recognition_time : ℚ

/-- The dispatch condition
`self.database_ready and face_coords and not is_recognition_running
and (current_time - self.last_recognition_time > self.RECOGNITION_INTERVAL)`
(a detected `face_coords` tuple is always truthy, `None` is falsy). -/
def should_dispatch (c : WorkerCtx) : Bool :=
  c.database_ready && c.face_coords.isSome && (!c.recognition_running) &&
    decide (c.current_time - c.last_recognition_time > RECOGNITION_INTERVAL)

/-- The dispatch decision of one worker iteration: whether a
recognition task is submitted, and the resulting
`self.last_recognition_time` (set to `current_time` just before the
submit, unchanged otherwise). -/
def dispatch_step (c : WorkerCtx) : Bool × ℚ :=
  if should_dispatch c then (true, c.current_time)
  else (false, c.last_recognition_time)

/-! ## Proof-internal predicates for the stabilization analysis -/

/-- The label `M` dominates the history once it is pushed: at most two
entries of the pushed history differ from `M`, and `M` occurs at least
three times as often as all other labels together.  This is the
obtained state of affairs after enough consecutive `M` frames, and it
forces the confidence condition of `update_recognition_state` to hold
with `M` as the most common label. -/
def mDominated (M : String) (s : RecState) : Prop :=
  s.hist.length ≤ HISTORY_MAX_LENGTH ∧
  (pushCap s.hist M).countP (fun x => x ≠ M) ≤ 2 ∧
  3 * (pushCap s.hist M).countP (fun x => x ≠ M) ≤ (pushCap s.hist M).count M

/-! ## Theorems -/

/-- Helper: the pushed history is never empty. -/
theorem pushCap_ne_nil (h : List String) (n : String) : pushCap h n ≠ [] := by
  rw [← List.length_pos_iff_ne_nil]
  simp only [pushCap]
  split
  · rename_i hlen
    simp only [List.length_tail, List.length_append, List.length_singleton]
    simp [HISTORY_MAX_LENGTH] at hlen
    omega
  · simp

/-- Helper: pushing onto a history within capacity keeps it within
capacity, and the new length is `min (old + 1) 8`. -/
theorem pushCap_length (h : List String) (n : String) (hh : h.length ≤ 8) :
    (pushCap h n).length = min (h.length + 1) 8 := by
  simp only [pushCap]
  split
  · rename_i hlen
    simp only [List.length_tail, List.length_append, List.length_singleton]
    simp [HISTORY_MAX_LENGTH] at hlen
    omega
  · rename_i hlen
    simp only [List.length_append, List.length_singleton]
    simp [HISTORY_MAX_LENGTH] at hlen
    omega

/-- Helper: each `update_recognition_state` call leaves the history
either cleared or equal to the pushed history. -/
theorem update_hist_cases (s : RecState) (n : String) :
    (update_recognition_state s n).hist = [] ∨
    (update_recognition_state s n).hist = pushCap s.hist n := by
  simp only [update_recognition_state]
  repeat' split
  all_goals first | (left; rfl) | (right; rfl)

/-- Helper: one update never pushes `stable_recognition_count` above
`REQUIRED_STABLE_FRAMES`. -/
theorem update_count_le (s : RecState) (n : String) (h : s.count ≤ 4) :
    (update_recognition_state s n).count ≤ 4 := by
  simp only [update_recognition_state, REQUIRED_STABLE_FRAMES]
  repeat' split
  all_goals simp_all
  all_goals omega

/-- C10: `stable_recognition_count` always lies between 0 and
`REQUIRED_STABLE_FRAMES = 4`: each update keeps it at most 4 when it
was at most 4, and along every label sequence from the initial state
it stays at most 4 (it is a `Nat`, hence never negative). -/
theorem c10_stable_count_bounded :
    (∀ (s : RecState) (name : String), s.count ≤ REQUIRED_STABLE_FRAMES →
      (update_recognition_state s name).count ≤ REQUIRED_STABLE_FRAMES) ∧
    (∀ labels : List String,
      (feedLabels initRecState labels).count ≤ REQUIRED_STABLE_FRAMES) := by
  constructor
  · intro s name h
    exact update_count_le s name h
  · intro labels
    suffices h : ∀ (s : RecState), s.count ≤ 4 →
        (feedLabels s labels).count ≤ 4 by
      exact h initRecState (by simp [initRecState])
    induction labels with
    | nil => intro s h; exact h
    | cons x xs ih =>
      intro s h
      exact ih (update_recognition_state s x) (update_count_le s x h)

/-- C10 witness: the bound applied at a concrete state and label. -/
theorem c10_witness :
    (update_recognition_state initRecState "A").count ≤ REQUIRED_STABLE_FRAMES :=
  c10_stable_count_bounded.1 initRecState "A" (by decide)

/-- C1 counterexample: from the initial state, after exactly 4 updates
with label "A" the stable counter has just reached 4 but no identity is
locked yet, contradicting the claim that `Locked("A")` is reached on
the 4th call. -/
theorem c1_counterexample :
    (feedLabels initRecState (List.replicate 4 "A")).count = REQUIRED_STABLE_FRAMES ∧
    (feedLabels initRecState (List.replicate 4 "A")).locked ≠ some "A" := by
  decide

/-- C1 amended: feeding "A" from the initial state, the stable counter
reaches 4 on the 4th call with no lock yet, the lock to "A" happens on
the 5th call (the first call on which the counter is already at 4),
and it is still `Locked("A")` after all 8 calls. -/
theorem c1_lock_on_fifth_update :
    (feedLabels initRecState (List.replicate 4 "A")).count = REQUIRED_STABLE_FRAMES ∧
    (feedLabels initRecState (List.replicate 4 "A")).locked = none ∧
    (feedLabels initRecState (List.replicate 5 "A")).locked = some "A" ∧
    (feedLabels initRecState (List.replicate 8 "A")).locked = some "A" := by
  decide

/-- C2 counterexample: when `detectMultiScale` raises, the worker
iteration does not produce the "frame processed with no face" outcome
the claim requires — it escapes with the exception instead. -/
theorem c2_counterexample :
    worker_iteration (.frame .raises) ≠ .ok (.processed none) := by
  simp [worker_iteration]

/-- C2 amended: an exception from `detectMultiScale` propagates out of
the loop body and terminates the worker (there is no handler around
detection); only an empty frame queue is caught and skipped, and a
successful detection yields the largest detected face scaled back up. -/
theorem c2_detection_error_propagates :
    worker_iteration (.frame .raises) = .error () ∧
    worker_iteration .empty = .ok .skipped ∧
    (∀ fs, worker_iteration (.frame (.faces fs)) =
      .ok (.processed ((largest_face fs).map scaleUpRect))) :=
  ⟨rfl, rfl, fun _ => rfl⟩

/-- C8: the recognition task normalizes every outcome of the external
recognizer: a best match below the 0.40 threshold yields the derived
identity name with its distance, a best match at or above the
threshold yields "Unknown" with the distance, an empty result yields
"Unknown" with infinity (`none`), and an exception yields "Unknown"
with infinity — the task always returns a value, never an exception. -/
theorem c8_recognition_normalization :
    (∀ (ident : String) (dist : ℚ) (rest : List (String × ℚ))
        (more : List (List (String × ℚ))),
      (dist < DEEPFACE_DISTANCE_THRESHOLD →
        run_deepface_recognition (.result (((ident, dist) :: rest) :: more)) =
          (path_to_name ident, some dist)) ∧
      (¬ dist < DEEPFACE_DISTANCE_THRESHOLD →
        run_deepface_recognition (.result (((ident, dist) :: rest) :: more)) =
          ("Unknown", some dist))) ∧
    (∀ more, run_deepface_recognition (.result ([] :: more)) = ("Unknown", none)) ∧
    run_deepface_recognition (.result []) = ("Unknown", none) ∧
    run_deepface_recognition .raises = ("Unknown", none) := by
  refine ⟨fun ident dist rest more => ⟨fun h => ?_, fun h => ?_⟩,
    fun more => rfl, rfl, rfl⟩
  · rw [run_deepface_recognition]
    rw [if_pos h]
  · rw [run_deepface_recognition]
    rw [if_neg h]

/-- C8 witness: the four outcomes at concrete inputs. -/
theorem c8_witness :
    run_deepface_recognition (.result [[("db/John_Doe/img.png", 3/10)]]) =
      ("John Doe", some (3/10)) ∧
    run_deepface_recognition (.result [[("db/John_Doe/img.png", 1/2)]]) =
      ("Unknown", some (1/2)) ∧
    run_deepface_recognition (.result [[]]) = ("Unknown", none) ∧
    run_deepface_recognition .raises = ("Unknown", none) := by
  refine ⟨?_, ?_, c8_recognition_normalization.2.1 [], c8_recognition_normalization.2.2.2⟩
  · have h := (c8_recognition_normalization.1 "db/John_Doe/img.png" (3/10) [] []).1
      (by norm_num [DEEPFACE_DISTANCE_THRESHOLD])
    rw [h]
    exact congrArg (fun s => (s, some ((3 : ℚ)/10))) (by decide)
  · exact (c8_recognition_normalization.1 "db/John_Doe/img.png" (1/2) [] []).2
      (by norm_num [DEEPFACE_DISTANCE_THRESHOLD])

/-- C9: a recognition task is submitted only when the database is
ready, a face was detected, no recognition is in flight and at least
`RECOGNITION_INTERVAL = 0.75` seconds have elapsed since the last
dispatch; and on submission the last-dispatch time becomes the current
time. -/
theorem c9_dispatch_gate (c : WorkerCtx) (h : (dispatch_step c).1 = true) :
    c.database_ready = true ∧
    c.face_coords.isSome = true ∧
    c.recognition_running = false ∧
    RECOGNITION_INTERVAL ≤ c.current_time - c.last_recognition_time ∧
    (dispatch_step c).2 = c.current_time := by
  unfold dispatch_step at h ⊢
  by_cases hs : should_dispatch c = true
  · have hs2 := hs
    unfold should_dispatch at hs2
    simp only [Bool.and_eq_true, decide_eq_true_eq, Bool.not_eq_true'] at hs2
    obtain ⟨⟨⟨h1, h2⟩, h3⟩, h4⟩ := hs2
    refine ⟨h1, h2, h3, le_of_lt h4, ?_⟩
    rw [if_pos hs]
  · rw [if_neg hs] at h
    simp at h

/-- C9 witness: the gate applied to a concrete dispatching context. -/
theorem c9_witness :
    (⟨true, some (1, 2, 3, 4), false, 1, 0⟩ : WorkerCtx).database_ready = true ∧
    (some (1, 2, 3, 4) : Option (Int × Int × Int × Int)).isSome = true ∧
    (⟨true, some (1, 2, 3, 4), false, 1, 0⟩ : WorkerCtx).recognition_running = false ∧
    RECOGNITION_INTERVAL ≤ (1 : ℚ) - 0 ∧
    (dispatch_step ⟨true, some (1, 2, 3, 4), false, 1, 0⟩).2 = 1 := by
  have h : (dispatch_step ⟨true, some (1, 2, 3, 4), false, 1, 0⟩).1 = true := by
    unfold dispatch_step should_dispatch
    rw [if_pos]
    all_goals norm_num [RECOGNITION_INTERVAL]
  have hc := c9_dispatch_gate ⟨true, some (1, 2, 3, 4), false, 1, 0⟩ h
  exact ⟨hc.1, hc.2.1, hc.2.2.1, hc.2.2.2.1, hc.2.2.2.2⟩

/-- C7: if the CSV append raises, `mark_attendance` changes nothing at
all: the cooldown table, the locked identity, the recognition history
and both attendance files keep their previous values, so a retry
remains possible. -/
theorem c7_no_state_change_on_write_failure (env : AttEnv) (st : AttState)
    (name : String) (hw : env.write_ok = false) :
    mark_attendance env st name = st := by
  unfold mark_attendance
  split
  · rfl
  · split
    · rfl
    · rfl
    · split
      · rw [if_neg (by simp [hw])]
      · split
        · rw [if_neg (by simp [hw])]
        · rfl

/-- C4: whenever the confidence condition of an update fails — the most
common label of the (pushed) history is a sentinel, or its proportion
is below 0.75 — the stable counter is 0 right after the update, and if
an identity was locked (a truthy locked-in name) the lock is released
and the history cleared. -/
theorem c4_reset_on_confidence_failure (s : RecState) (name mc : String) (cnt : Nat)
    (hmc : mostCommon (pushCap s.hist name) = some (mc, cnt))
    (hfail : mc ∈ sentinelLabels ∨ 4 * cnt < 3 * (pushCap s.hist name).length) :
    (update_recognition_state s name).count = 0 ∧
    (strTruthy s.locked = true →
      (update_recognition_state s name).locked = none ∧
      (update_recognition_state s name).hist = []) := by
  have hne := pushCap_ne_nil s.hist name
  have hcond : ¬ (mc ∉ sentinelLabels ∧ 4 * cnt ≥ 3 * (pushCap s.hist name).length) := by
    rintro ⟨h1, h2⟩
    rcases hfail with h | h
    · exact h1 h
    · omega
  simp only [update_recognition_state, if_neg hne, hmc, if_neg hcond]
  by_cases ht : strTruthy s.locked = true
  · simp [ht]
  · simp [ht]

/-- C4 witness: a locked state whose history proportion drops below the
threshold on an "Unknown" frame. -/
theorem c4_witness :
    (update_recognition_state ⟨["A", "A"], 4, some "A"⟩ "Unknown").count = 0 ∧
    (update_recognition_state ⟨["A", "A"], 4, some "A"⟩ "Unknown").locked = none ∧
    (update_recognition_state ⟨["A", "A"], 4, some "A"⟩ "Unknown").hist = [] := by
  have h := c4_reset_on_confidence_failure ⟨["A", "A"], 4, some "A"⟩ "Unknown" "A" 2
    (by decide) (Or.inr (by decide))
  exact ⟨h.1, (h.2 (by decide)).1, (h.2 (by decide)).2⟩

/-- Helper: a `mark_attendance` call that performed a log write has set
the cooldown entry of the name to `now + LOG_COOLDOWN_SECONDS`. -/
theorem mark_success_cooldown (env : AttEnv) (st : AttState) (name : String)
    (hsucc : totalWrites (mark_attendance env st name) = totalWrites st + 1) :
    (mark_attendance env st name).recently_logged name =
      some (env.now + LOG_COOLDOWN_SECONDS) := by
  by_cases hcool : cooldownActive st env.now name = true
  · exfalso
    unfold mark_attendance at hsucc
    rw [if_pos hcool] at hsucc
    omega
  · unfold mark_attendance at hsucc ⊢
    rw [if_neg hcool] at hsucc ⊢
    cases hdet : env.details name with
    | missing =>
      rw [hdet] at hsucc
      dsimp only at hsucc
      exact absurd hsucc (by omega)
    | unreadable =>
      rw [hdet] at hsucc
      dsimp only at hsucc
      exact absurd hsucc (by omega)
    | found ut dept =>
      rw [hdet] at hsucc
      dsimp only at hsucc ⊢
      by_cases hs : ut = "Student"
      · rw [if_pos hs] at hsucc ⊢
        by_cases hwo : env.write_ok = true
        · rw [if_pos hwo]
          simp
        · rw [if_neg hwo] at hsucc
          exact absurd hsucc (by omega)
      · rw [if_neg hs] at hsucc ⊢
        by_cases hf : ut = "Faculty"
        · rw [if_pos hf] at hsucc ⊢
          by_cases hwo : env.write_ok = true
          · rw [if_pos hwo]
            simp
          · rw [if_neg hwo] at hsucc
            exact absurd hsucc (by omega)
        · rw [if_neg hf] at hsucc
          exact absurd hsucc (by omega)

/-- Helper: with the cooldown active, `mark_attendance` is the
identity. -/
theorem mark_attendance_of_cooldown (env : AttEnv) (st : AttState) (name : String)
    (h : cooldownActive st env.now name = true) :
    mark_attendance env st name = st := by
  unfold mark_attendance
  rw [if_pos h]

/-- C5: after a `mark_attendance` call that performed a log write, a
second call for the same identity before the cooldown expiry changes
nothing — exactly one log write results from the two calls, and the
second call is a no-op, not an error. -/
theorem c5_second_call_within_cooldown_no_op (env1 env2 : AttEnv) (st : AttState)
    (name : String)
    (hsucc : totalWrites (mark_attendance env1 st name) = totalWrites st + 1)
    (hwin : env2.now < env1.now + LOG_COOLDOWN_SECONDS) :
    mark_attendance env2 (mark_attendance env1 st name) name =
      mark_attendance env1 st name ∧
    totalWrites (mark_attendance env2 (mark_attendance env1 st name) name) =
      totalWrites st + 1 := by
  have hrl := mark_success_cooldown env1 st name hsucc
  have hact : cooldownActive (mark_attendance env1 st name) env2.now name = true := by
    unfold cooldownActive
    rw [hrl]
    simpa using hwin
  have h1 := mark_attendance_of_cooldown env2 (mark_attendance env1 st name) name hact
  exact ⟨h1, by rw [h1]; exact hsucc⟩

/-- C5 witness: two calls for "Bob" 100 seconds apart. -/
theorem c5_witness :
    mark_attendance ⟨100, fun n => if n = "Bob" then .found "Student" "BSIT" else .missing, true⟩
        (mark_attendance ⟨0, fun n => if n = "Bob" then .found "Student" "BSIT" else .missing, true⟩
          ⟨fun _ => none, none, [], [], []⟩ "Bob") "Bob" =
      mark_attendance ⟨0, fun n => if n = "Bob" then .found "Student" "BSIT" else .missing, true⟩
        ⟨fun _ => none, none, [], [], []⟩ "Bob" ∧
    totalWrites
      (mark_attendance ⟨100, fun n => if n = "Bob" then .found "Student" "BSIT" else .missing, true⟩
        (mark_attendance ⟨0, fun n => if n = "Bob" then .found "Student" "BSIT" else .missing, true⟩
          ⟨fun _ => none, none, [], [], []⟩ "Bob") "Bob") =
      totalWrites ⟨fun _ => none, none, [], [], []⟩ + 1 :=
  c5_second_call_within_cooldown_no_op
    ⟨0, fun n => if n = "Bob" then .found "Student" "BSIT" else .missing, true⟩
    ⟨100, fun n => if n = "Bob" then .found "Student" "BSIT" else .missing, true⟩
    ⟨fun _ => none, none, [], [], []⟩ "Bob" (by decide) (by decide)

/-- C6: a `mark_attendance` call with no live cooldown entry, a valid
persisted record (user type Student or Faculty) and a succeeding append
writes exactly one row to the matching attendance file (the other file
untouched), sets the cooldown entry to `now + 300`, clears the locked
identity and empties the recognition history. -/
theorem c6_commit_success (env : AttEnv) (st : AttState) (name ut dept : String)
    (hcool : cooldownActive st env.now name = false)
    (hdet : env.details name = .found ut dept)
    (hut : ut = "Student" ∨ ut = "Faculty")
    (hw : env.write_ok = true) :
    (ut = "Student" →
      (mark_attendance env st name).student_log =
        st.student_log ++ [⟨name, dept, env.now⟩] ∧
      (mark_attendance env st name).faculty_log = st.faculty_log) ∧
    (ut = "Faculty" →
      (mark_attendance env st name).faculty_log =
        st.faculty_log ++ [⟨name, dept, env.now⟩] ∧
      (mark_attendance env st name).student_log = st.student_log) ∧
    (mark_attendance env st name).recently_logged name =
      some (env.now + LOG_COOLDOWN_SECONDS) ∧
    (mark_attendance env st name).locked_in_person = none ∧
    (mark_attendance env st name).recognition_history = [] := by
  have hcool2 : ¬ cooldownActive st env.now name = true := by simp [hcool]
  rcases hut with h | h
  · subst h
    have hmark : mark_attendance env st name =
        { recently_logged := fun n =>
            if n = name then some (env.now + LOG_COOLDOWN_SECONDS)
            else st.recently_logged n,
          locked_in_person := none,
          recognition_history := [],
          student_log := st.student_log ++ [⟨name, dept, env.now⟩],
          faculty_log := st.faculty_log } := by
      unfold mark_attendance
      rw [if_neg hcool2, hdet]
      dsimp only
      rw [if_pos rfl, if_pos hw]
    rw [hmark]
    refine ⟨fun _ => ⟨rfl, rfl⟩, fun hc => absurd hc (by decide), by simp, rfl, rfl⟩
  · subst h
    have hmark : mark_attendance env st name =
        { recently_logged := fun n =>
            if n = name then some (env.now + LOG_COOLDOWN_SECONDS)
            else st.recently_logged n,
          locked_in_person := none,
          recognition_history := [],
          student_log := st.student_log,
          faculty_log := st.faculty_log ++ [⟨name, dept, env.now⟩] } := by
      unfold mark_attendance
      rw [if_neg hcool2, hdet]
      dsimp only
      rw [if_neg (by decide), if_pos rfl, if_pos hw]
    rw [hmark]
    refine ⟨fun hc => absurd hc (by decide), fun _ => ⟨rfl, rfl⟩, by simp, rfl, rfl⟩

/-- C6 witness: a fresh commit for "Bob" (a Student). -/
theorem c6_witness :
    (mark_attendance ⟨0, fun n => if n = "Bob" then .found "Student" "BSIT" else .missing, true⟩
        ⟨fun _ => none, some "Bob", ["Bob"], [], []⟩ "Bob").student_log =
      [] ++ [⟨"Bob", "BSIT", 0⟩] ∧
    (mark_attendance ⟨0, fun n => if n = "Bob" then .found "Student" "BSIT" else .missing, true⟩
        ⟨fun _ => none, some "Bob", ["Bob"], [], []⟩ "Bob").faculty_log = [] ∧
    (mark_attendance ⟨0, fun n => if n = "Bob" then .found "Student" "BSIT" else .missing, true⟩
        ⟨fun _ => none, some "Bob", ["Bob"], [], []⟩ "Bob").recently_logged "Bob" =
      some (0 + LOG_COOLDOWN_SECONDS) ∧
    (mark_attendance ⟨0, fun n => if n = "Bob" then .found "Student" "BSIT" else .missing, true⟩
        ⟨fun _ => none, some "Bob", ["Bob"], [], []⟩ "Bob").locked_in_person = none ∧
    (mark_attendance ⟨0, fun n => if n = "Bob" then .found "Student" "BSIT" else .missing, true⟩
        ⟨fun _ => none, some "Bob", ["Bob"], [], []⟩ "Bob").recognition_history = [] := by
  have h := c6_commit_success
    ⟨0, fun n => if n = "Bob" then .found "Student" "BSIT" else .missing, true⟩
    ⟨fun _ => none, some "Bob", ["Bob"], [], []⟩ "Bob" "Student" "BSIT"
    (by decide) (by decide) (Or.inl rfl) rfl
  exact ⟨(h.1 rfl).1, (h.1 rfl).2, h.2.2.1, h.2.2.2.1, h.2.2.2.2⟩

/-- Helper: pushing below capacity is a plain append. -/
theorem pushCap_of_lt (l : List String) (n : String) (h : l.length < 8) :
    pushCap l n = l ++ [n] := by
  simp only [pushCap]
  rw [if_neg]
  simp only [HISTORY_MAX_LENGTH, List.length_append, List.length_singleton]
  omega

/-- Helper: pushing at full capacity drops the front element. -/
theorem pushCap_of_eq8 (l : List String) (n : String) (h : l.length = 8) :
    pushCap l n = l.tail ++ [n] := by
  cases l with
  | nil => simp at h
  | cons a as =>
    simp only [pushCap]
    rw [if_pos]
    · simp only [List.cons_append, List.tail_cons]
    · simp only [HISTORY_MAX_LENGTH, List.cons_append, List.length_cons,
        List.length_append, List.length_singleton]
      simp only [List.length_cons] at h
      omega

/-- Helper: every element of the pushed history came from the history
or is the pushed label. -/
theorem mem_pushCap (l : List String) (n x : String) (hx : x ∈ pushCap l n) :
    x ∈ l ++ [n] := by
  simp only [pushCap] at hx
  split at hx
  · exact List.mem_of_mem_tail hx
  · exact hx

/-- Helper: appending one more copy extends a replicate block. -/
theorem replicate_append_one (n : Nat) (M : String) :
    List.replicate n M ++ [M] = List.replicate (n + 1) M := by
  rw [List.replicate_add]
  rfl

/-- Helper: a list splits into its non-`M` entries and its `M`
entries (stated for any predicate that is the complement of equality
with `M`). -/
theorem length_split_count (p : String → Bool) (M : String)
    (hp : ∀ x, p x = !(x == M)) (l : List String) :
    l.length = l.countP p + l.count M := by
  induction l with
  | nil => simp
  | cons x xs ih =>
    rw [List.length_cons, List.countP_cons, List.count_cons, ih, hp x]
    by_cases hx : x = M
    · have hbx : (x == M) = true := by simp [hx]
      rw [hbx]
      simp
      omega
    · have hbx : (x == M) = false := by simp [hx]
      rw [hbx]
      simp
      omega

/-- Helper: the count of any label other than `M` is at most the count
of non-`M` entries. -/
theorem count_le_countP_ne (M x : String) (l : List String) (hx : x ≠ M) :
    l.count x ≤ l.countP (fun y => y ≠ M) := by
  rw [List.count_eq_countP]
  apply List.countP_mono_left
  intro a _ ha
  simp only [beq_iff_eq] at ha
  subst ha
  simpa using hx

/-- Helper: the `mostCommon` fold returns the strictly dominant element
of the list. -/
theorem mcFold_dominant (l : List String) (b : String)
    (hdom : ∀ x ∈ l, x ≠ b → l.count x < l.count b) :
    ∀ (l2 : List String), (∀ x ∈ l2, x ∈ l) →
      ∀ (acc : Option (String × Nat)),
      (acc = none ∨ ∃ y, y ∈ l ∧ acc = some (y, l.count y)) →
      (b ∈ l2 ∨ acc = some (b, l.count b)) →
      List.foldl (mcStep l) acc l2 = some (b, l.count b) := by
  intro l2
  induction l2 with
  | nil =>
    intro _ acc _ htrack
    rcases htrack with h | h
    · exact absurd h (List.not_mem_nil b)
    · simpa using h
  | cons x xs ih =>
    intro hsub acc hacc htrack
    rw [List.foldl_cons]
    have hxl : x ∈ l := hsub x (List.mem_cons_self x xs)
    have hsub2 : ∀ y ∈ xs, y ∈ l := fun y hy => hsub y (List.mem_cons_of_mem x hy)
    have hacc2 : ∃ y, y ∈ l ∧ mcStep l acc x = some (y, l.count y) := by
      rcases hacc with h | ⟨y, hy, hae⟩
      · subst h; exact ⟨x, hxl, rfl⟩
      · subst hae
        by_cases hgt : l.count x > l.count y
        · exact ⟨x, hxl, by simp [mcStep, hgt]⟩
        · exact ⟨y, hy, by simp [mcStep, hgt]⟩
    obtain ⟨y2, hy2, hstep⟩ := hacc2
    apply ih hsub2
    · right; exact ⟨y2, hy2, hstep⟩
    · rcases htrack with hmem | hae
      · rcases List.mem_cons.mp hmem with hxb | hxs
        · right
          subst hxb
          rcases hacc with h | ⟨y, hy, hae2⟩
          · subst h; rfl
          · subst hae2
            by_cases hgt : l.count b > l.count y
            · simp [mcStep, hgt]
            · by_cases hyb : y = b
              · subst hyb; simp [mcStep, hgt]
              · exact absurd (hdom y hy hyb) (by omega)
        · left; exact hxs
      · right
        subst hae
        by_cases hgt : l.count x > l.count b
        · by_cases hxb : x = b
          · subst hxb; omega
          · have := hdom x hxl hxb; omega
        · simp [mcStep, hgt]

/-- Helper: `mostCommon` of a list with a strictly dominant element. -/
theorem mostCommon_of_dominant (l : List String) (b : String) (hb : b ∈ l)
    (hdom : ∀ x ∈ l, x ≠ b → l.count x < l.count b) :
    mostCommon l = some (b, l.count b) :=
  mcFold_dominant l b hdom l (fun _ hx => hx) none (Or.inl rfl) (Or.inl hb)

/-- Helper: when the confidence condition holds, the update is fully
determined: history pushed, counter incremented while below 4,
otherwise the most common label gets (or keeps) the lock. -/
theorem update_success_eq (s : RecState) (name mc : String) (cnt : Nat)
    (hmc : mostCommon (pushCap s.hist name) = some (mc, cnt))
    (hsen : mc ∉ sentinelLabels)
    (hprop : 4 * cnt ≥ 3 * (pushCap s.hist name).length) :
    update_recognition_state s name =
      { hist := pushCap s.hist name,
        count := if s.count < REQUIRED_STABLE_FRAMES then s.count + 1 else s.count,
        locked := if s.count < REQUIRED_STABLE_FRAMES then s.locked else some mc } := by
  have hne := pushCap_ne_nil s.hist name
  simp only [update_recognition_state, if_neg hne, hmc, if_pos (And.intro hsen hprop)]
  by_cases hc : s.count < REQUIRED_STABLE_FRAMES
  · simp [hc]
  · by_cases hl : s.locked = some mc
    · simp [hc, hl]
    · simp [hc, hl]

/-- Helper: under `mDominated`, the update takes the success branch
with `M` as the most common label. -/
theorem update_of_dominated (M : String) (hM : M ∉ sentinelLabels) (s : RecState)
    (hd : mDominated M s) :
    update_recognition_state s M =
      { hist := pushCap s.hist M,
        count := if s.count < REQUIRED_STABLE_FRAMES then s.count + 1 else s.count,
        locked := if s.count < REQUIRED_STABLE_FRAMES then s.locked else some M } := by
  obtain ⟨hlen, hp2, hp3⟩ := hd
  have hsplit := length_split_count (fun x => x ≠ M) M
    (by intro x; by_cases h : x = M <;> simp [h]) (pushCap s.hist M)
  have hne : pushCap s.hist M ≠ [] := pushCap_ne_nil s.hist M
  have hcM : 1 ≤ (pushCap s.hist M).count M := by
    by_contra hc
    have hlen0 : (pushCap s.hist M).length = 0 := by omega
    exact hne (List.eq_nil_of_length_eq_zero hlen0)
  have hbmem : M ∈ pushCap s.hist M := List.count_pos_iff.mp (by omega)
  have hdomi : ∀ x ∈ pushCap s.hist M, x ≠ M →
      (pushCap s.hist M).count x < (pushCap s.hist M).count M := by
    intro x hx hxm
    have h1 := count_le_countP_ne M x (pushCap s.hist M) hxm
    have h2 : 1 ≤ (pushCap s.hist M).count x := List.count_pos_iff.mpr hx
    omega
  have hmc := mostCommon_of_dominant (pushCap s.hist M) M hbmem hdomi
  have hprop : 4 * (pushCap s.hist M).count M ≥ 3 * (pushCap s.hist M).length := by
    omega
  exact update_success_eq s M M ((pushCap s.hist M).count M) hmc hM hprop

/-- Helper: a list of at most two junk entries followed by six copies
of `M` is dominated by `M` (any predicate false at `M`). -/
theorem dom_of_two_junk (p : String → Bool) (M : String) (hpM : p M = false)
    (q : List String) (hq : q.length ≤ 2) :
    ((q ++ List.replicate 6 M).countP p) ≤ 2 ∧
    3 * ((q ++ List.replicate 6 M).countP p) ≤ (q ++ List.replicate 6 M).count M := by
  rw [List.countP_append, List.count_append]
  have h1 : (List.replicate 6 M).countP p = 0 :=
    List.countP_eq_zero.mpr (fun a ha => by rw [List.eq_of_mem_replicate ha, hpM]; simp)
  have h2 : (List.replicate 6 M).count M = 6 := List.count_replicate_self M 6
  have h3 : q.countP p ≤ q.length := List.countP_le_length _
  rw [h1, h2]
  omega

/-- Helper: pushing `M` preserves domination by `M` (any predicate
false at `M`). -/
theorem pushCap_count_facts (p : String → Bool) (l : List String) (M : String)
    (hpM : p M = false)
    (hp2 : l.countP p ≤ 2)
    (hp3 : 3 * l.countP p ≤ l.count M) :
    (pushCap l M).countP p ≤ 2 ∧
    3 * ((pushCap l M).countP p) ≤ (pushCap l M).count M := by
  have e1 : List.countP p [M] = 0 := by
    rw [List.countP_cons, List.countP_nil, hpM]
    rfl
  have e2 : List.count M [M] = 1 := by simp
  simp only [pushCap]
  split
  · rename_i hlen
    cases l with
    | nil => simp [HISTORY_MAX_LENGTH] at hlen
    | cons x xs =>
      simp only [List.cons_append, List.tail_cons]
      rw [List.countP_append, List.count_append, e1, e2]
      rw [List.countP_cons] at hp2
      rw [List.countP_cons, List.count_cons] at hp3
      by_cases hx : x = M
      · have hpx : p x = false := by rw [hx]; exact hpM
        have hb : (x == M) = true := by simp [hx]
        rw [hpx] at hp2 hp3
        rw [hb] at hp3
        simp at hp2 hp3
        omega
      · have hb : (x == M) = false := by simp [hx]
        rw [hb] at hp3
        simp only [Bool.false_eq_true, if_false] at hp3
        omega
  · rw [List.countP_append, List.count_append, e1, e2]
    omega

/-- Helper: the update with `M` preserves `mDominated M`. -/
theorem mDominated_update (M : String) (hM : M ∉ sentinelLabels) (s : RecState)
    (hd : mDominated M s) :
    mDominated M (update_recognition_state s M) := by
  have hu := update_of_dominated M hM s hd
  obtain ⟨hlen, hp2, hp3⟩ := hd
  have hlen8 : s.hist.length ≤ 8 := by simpa [HISTORY_MAX_LENGTH] using hlen
  rw [hu]
  have hfacts := pushCap_count_facts (fun x => x ≠ M) (pushCap s.hist M) M
    (by simp) hp2 hp3
  refine ⟨?_, hfacts.1, hfacts.2⟩
  show (pushCap s.hist M).length ≤ HISTORY_MAX_LENGTH
  rw [pushCap_length s.hist M hlen8]
  simp only [HISTORY_MAX_LENGTH]
  omega

/-- Helper: from a dominated state, feeding `M` for `k` frames locks
`M` as soon as the counter has had time to pass 4 (`count + k ≥ 5`). -/
theorem dominated_feed_locked (M : String) (hM : M ∉ sentinelLabels) :
    ∀ (k : Nat) (s : RecState), mDominated M s → 1 ≤ k → 5 ≤ s.count + k →
      (feedLabels s (List.replicate k M)).locked = some M := by
  intro k
  induction k with
  | zero => intro s _ h1 _; exact absurd h1 (by omega)
  | succ k ih =>
    intro s hd h1 h5
    rw [List.replicate_succ]
    show (List.foldl update_recognition_state s
      (M :: List.replicate k M)).locked = some M
    rw [List.foldl_cons]
    have hu := update_of_dominated M hM s hd
    cases k with
    | zero =>
      rw [show List.replicate 0 M = [] from rfl, List.foldl_nil, hu]
      simp only
      rw [if_neg (by simp only [REQUIRED_STABLE_FRAMES]; omega)]
    | succ k2 =>
      have hd2 := mDominated_update M hM s hd
      have hcount : 5 ≤ (update_recognition_state s M).count + (k2 + 1) := by
        rw [hu]
        simp only
        by_cases hc : s.count < REQUIRED_STABLE_FRAMES
        · rw [if_pos hc]; omega
        · rw [if_neg hc]
          simp only [REQUIRED_STABLE_FRAMES] at hc
          omega
      exact ih (update_recognition_state s M) hd2 (by omega) hcount

/-- Helper: update keeps the history within capacity. -/
theorem update_hist_len (s : RecState) (n : String) (h : s.hist.length ≤ 8) :
    (update_recognition_state s n).hist.length ≤ 8 := by
  rcases update_hist_cases s n with hc | hc <;> rw [hc]
  · simp
  · rw [pushCap_length s.hist n h]
    omega

/-- Helper: after `j ≤ 8` consecutive `M` frames, the history is some
(short) prefix of stale entries followed by a replicate block of `M`,
and the stale prefix has at most `8 - j` entries. -/
theorem feed_hist_inv (M : String) :
    ∀ (j : Nat), j ≤ 8 → ∀ (s : RecState), s.hist.length ≤ 8 →
      (feedLabels s (List.replicate j M)).hist.length ≤ 8 ∧
      ∃ pre k, (feedLabels s (List.replicate j M)).hist = pre ++ List.replicate k M ∧
        pre.length + j ≤ 8 ∧ (pre = [] ∨ k = j) := by
  intro j
  induction j with
  | zero =>
    intro _ s hs
    exact ⟨by simpa [feedLabels] using hs, s.hist, 0, by simp [feedLabels],
      by simpa using hs, Or.inr rfl⟩
  | succ j ih =>
    intro hj s hs
    obtain ⟨hlen, pre, k, hrep, hpre, hdisj⟩ := ih (by omega) s hs
    have hdecomp : feedLabels s (List.replicate (j + 1) M) =
        update_recognition_state (feedLabels s (List.replicate j M)) M := by
      rw [List.replicate_add j 1]
      show List.foldl update_recognition_state s
          (List.replicate j M ++ List.replicate 1 M) = _
      rw [List.foldl_append]
      rfl
    rw [hdecomp]
    refine ⟨update_hist_len _ M hlen, ?_⟩
    rcases update_hist_cases (feedLabels s (List.replicate j M)) M with hc | hc
    · exact ⟨[], 0, by simp [hc], by simp; omega, Or.inl rfl⟩
    · rw [hc]
      by_cases hp0 : pre = []
      · subst hp0
        rw [List.nil_append] at hrep
        have hkle : k ≤ 8 := by
          rw [hrep, List.length_replicate] at hlen
          exact hlen
        by_cases hk8 : k < 8
        · refine ⟨[], k + 1, ?_, by simp; omega, Or.inl rfl⟩
          rw [hrep] at hc ⊢
          rw [pushCap_of_lt _ _ (by simpa using hk8), replicate_append_one]
          simp
        · have hk8e : k = 8 := by omega
          subst hk8e
          refine ⟨[], 8, ?_, by simp; omega, Or.inl rfl⟩
          rw [hrep]
          rw [pushCap_of_eq8 _ _ (by simp)]
          rw [show (List.replicate 8 M).tail = List.replicate 7 M from rfl]
          rw [replicate_append_one]
          simp
      · have hk := hdisj.resolve_left hp0
        rw [hk] at hrep
        obtain ⟨a, pre2, rfl⟩ := List.exists_cons_of_ne_nil hp0
        have hlenrep : (feedLabels s (List.replicate j M)).hist.length =
            pre2.length + 1 + j := by
          rw [hrep]
          simp [List.length_replicate]
          omega
        by_cases hsz : (feedLabels s (List.replicate j M)).hist.length < 8
        · refine ⟨a :: pre2, j + 1, ?_, by simp; omega, Or.inr rfl⟩
          rw [pushCap_of_lt _ _ hsz, hrep, List.append_assoc, replicate_append_one]
        · have hsz8 : (feedLabels s (List.replicate j M)).hist.length = 8 := by omega
          refine ⟨pre2, j + 1, ?_, by omega, Or.inr rfl⟩
          rw [pushCap_of_eq8 _ _ hsz8, hrep]
          simp only [List.cons_append, List.tail_cons]
          rw [List.append_assoc, replicate_append_one]

/-- Helper: the shape delivered by `feed_hist_inv` at `j = 5` is
dominated by `M` once one more `M` is pushed. -/
theorem mDominated_of_shape (M : String) (t : RecState)
    (hlen : t.hist.length ≤ 8)
    (pre : List String) (k : Nat)
    (hrep : t.hist = pre ++ List.replicate k M)
    (hpre : pre.length + 5 ≤ 8)
    (hdisj : pre = [] ∨ k = 5) :
    mDominated M t := by
  have key : ((pushCap t.hist M).countP fun x => x ≠ M) ≤ 2 ∧
      3 * ((pushCap t.hist M).countP fun x => x ≠ M) ≤ (pushCap t.hist M).count M := by
    by_cases hp0 : pre = []
    · subst hp0
      rw [List.nil_append] at hrep
      have hall : ∀ x ∈ pushCap t.hist M, x = M := by
        intro x hx
        have hx2 := mem_pushCap t.hist M x hx
        rw [hrep] at hx2
        rcases List.mem_append.mp hx2 with h | h
        · exact List.eq_of_mem_replicate h
        · simpa using h
      have h0 : (pushCap t.hist M).countP (fun x => x ≠ M) = 0 :=
        List.countP_eq_zero.mpr (fun a ha => by simp [hall a ha])
      rw [h0]
      exact ⟨by omega, by omega⟩
    · have hk := hdisj.resolve_left hp0
      rw [hk] at hrep
      obtain ⟨a, pre2, rfl⟩ := List.exists_cons_of_ne_nil hp0
      have hlenrep : t.hist.length = pre2.length + 1 + 5 := by
        rw [hrep]
        simp [List.length_replicate]
      by_cases hsz : t.hist.length < 8
      · rw [pushCap_of_lt _ _ hsz, hrep, List.append_assoc, replicate_append_one]
        exact dom_of_two_junk (fun x => x ≠ M) M (by simp) (a :: pre2) (by simp; omega)
      · have hsz8 : t.hist.length = 8 := by omega
        rw [pushCap_of_eq8 _ _ hsz8, hrep]
        simp only [List.cons_append, List.tail_cons]
        rw [List.append_assoc, replicate_append_one]
        exact dom_of_two_junk (fun x => x ≠ M) M (by simp) pre2 (by omega)
  exact ⟨by simpa [HISTORY_MAX_LENGTH] using hlen, key.1, key.2⟩

/-- C3 counterexample: a reachable run (8 alternating frames of "B"
and "Unknown" from the initial state, then 8 consecutive frames of the
non-sentinel identity "M").  The last 8 labels — a full history
capacity — are all "M", yet after processing them no identity is
locked: stale history entries delay the confidence condition, so 8
identical trailing labels are not enough. -/
theorem c3_counterexample :
    List.drop 8 (["B", "Unknown", "B", "Unknown", "B", "Unknown", "B", "Unknown"] ++
      List.replicate 8 "M") = List.replicate 8 "M" ∧
    "M" ∉ sentinelLabels ∧
    (feedLabels initRecState
      (["B", "Unknown", "B", "Unknown", "B", "Unknown", "B", "Unknown"] ++
        List.replicate 8 "M")).locked ≠ some "M" := by
  decide

/-- C3 amended: for every stabilization state whose history is within
the capacity 8 (in particular every reachable state) and every
non-sentinel identity `M`, feeding 10 consecutive `M` labels — rather
than the claimed 8 — always ends with `M` locked in. -/
theorem c3_ten_consecutive_frames_lock (s : RecState) (M : String)
    (hlen : s.hist.length ≤ HISTORY_MAX_LENGTH) (hM : M ∉ sentinelLabels) :
    (feedLabels s (List.replicate 10 M)).locked = some M := by
  have h10 : List.replicate 10 M = List.replicate 5 M ++ List.replicate 5 M := by
    rw [← List.replicate_add]
  rw [h10]
  show (List.foldl update_recognition_state s
    (List.replicate 5 M ++ List.replicate 5 M)).locked = some M
  rw [List.foldl_append]
  obtain ⟨hl5, pre, k, hrep, hpre, hdisj⟩ :=
    feed_hist_inv M 5 (by omega) s (by simpa [HISTORY_MAX_LENGTH] using hlen)
  have hdom : mDominated M (feedLabels s (List.replicate 5 M)) :=
    mDominated_of_shape M (feedLabels s (List.replicate 5 M)) hl5 pre k hrep hpre hdisj
  exact dominated_feed_locked M hM 5 (feedLabels s (List.replicate 5 M)) hdom
    (by omega) (by omega)

/-- C3 witness: ten "A" frames from the initial state lock "A". -/
theorem c3_witness :
    (feedLabels initRecState (List.replicate 10 "A")).locked = some "A" :=
  c3_ten_consecutive_frames_lock initRecState "A" (by decide) (by decide)

/-- C7 witness: a failing write at a concrete environment and state. -/
theorem c7_witness :
    mark_attendance ⟨0, fun _ => .missing, false⟩
        ⟨fun _ => none, none, [], [], []⟩ "Bob" =
      ⟨fun _ => none, none, [], [], []⟩ :=
  c7_no_state_change_on_write_failure ⟨0, fun _ => .missing, false⟩
    ⟨fun _ => none, none, [], [], []⟩ "Bob" rfl

end FaceApp
